import Mathlib

/-!
Verification of the two data-format engines of the repository:
the `multipart/form-data` encoder (`src/requests/multipart.rs`)
and the template engine (`src/template.rs`).

The Rust code is shallowly embedded: byte buffers become `List Nat`
(each element a byte value), Rust `String` becomes Lean `String`,
and fallible operations return `Except`.
-/

set_option maxRecDepth 10000

/-- UTF-8 encoding of a single character, as a list of byte values.
Mirrors Rust's `char` UTF-8 encoding used by `String::as_bytes` /
`Bytes::from(String)`. -/
def utf8Bytes (c : Char) : List Nat :=
  let n := c.toNat
  if n < 0x80 then [n]
  else if n < 0x800 then [0xC0 + n / 64, 0x80 + n % 64]
  else if n < 0x10000 then [0xE0 + n / 4096, 0x80 + (n / 64) % 64, 0x80 + n % 64]
  else [0xF0 + n / 262144, 0x80 + (n / 4096) % 64, 0x80 + (n / 64) % 64, 0x80 + n % 64]

/-- `char::len_utf8` from Rust: the number of bytes of the UTF-8 encoding. -/
def utf8Len (c : Char) : Nat :=
  let n := c.toNat
  if n < 0x80 then 1
  else if n < 0x800 then 2
  else if n < 0x10000 then 3
  else 4

/-- The UTF-8 bytes of a string (Rust `str::as_bytes`). -/
def strBytes (s : String) : List Nat :=
  s.data.flatMap utf8Bytes

/-! ## Multipart form encoder (`src/requests/multipart.rs`) -/

/-- `FieldKey` from `multipart.rs`: a field name and an optional file name. -/
structure FieldKey where
  name : String
  file_name : Option String
deriving DecidableEq

/-- `Form` from `multipart.rs`: ordered fields (key plus payload bytes)
and the boundary string. -/
structure Form where
  fields : List (FieldKey × List Nat)
  boundary : String
deriving DecidableEq

/-- `Form::new`: empty field list, hard-coded boundary. -/
def Form.new : Form :=
  { fields := [], boundary := "-sdsaddsfgdghhskjtretyetertertedh?-" }

/-- `quote` from `multipart.rs`: RFC 822 quoted-string escaping.
For each character of the input, if it is a backslash, a carriage return
or a double quote, a backslash is pushed before the character. -/
def quote (s : String) : String :=
  s.data.foldl
    (fun result c =>
      if c = '\\' ∨ c = '\r' ∨ c = '\x22' then (result.push '\\').push c
      else result.push c)
    ""

/-- `Form::content_type`. -/
def Form.content_type (f : Form) : String :=
  "multipart/form-data; boundary=\x22" ++ quote f.boundary ++ "\x22"

/-- `Form::text`: appends a text field whose payload is the UTF-8 bytes of
the given string and whose key has no file name. -/
def Form.text (f : Form) (field_name : String) (text : String) : Form :=
  { f with fields := f.fields ++ [({ name := field_name, file_name := none }, strBytes text)] }

/-- `Form::file`: appends a file field with the given raw payload bytes. -/
def Form.file (f : Form) (field_name : String) (file_name : String) (data : List Nat) : Form :=
  { f with fields := f.fields ++ [({ name := field_name, file_name := some file_name }, data)] }

/-- `Form::bytes`: the serialised `multipart/form-data` body, following the
exact sequence of `put_slice` calls in the Rust loop. -/
def Form.bytes (f : Form) : List Nat :=
  let dashes := strBytes "--"
  let boundary := strBytes f.boundary
  let crlf := strBytes "\r\n"
  (f.fields.flatMap fun kd =>
    dashes ++ boundary ++ crlf
    ++ strBytes "Content-Disposition: form-data; name=\x22"
    ++ strBytes (quote kd.1.name)
    ++ strBytes "\x22"
    ++ (match kd.1.file_name with
        | some file_name => strBytes "; filename=\x22" ++ strBytes (quote file_name) ++ strBytes "\x22"
        | none => [])
    ++ crlf ++ crlf ++ kd.2 ++ crlf)
  ++ dashes ++ boundary ++ dashes

/-! ## Specification-side wire format (for the refinement claim about `Form::bytes`) -/

/-- The per-field block of the wire-format grammar given in the
specification (§6): dashes, boundary, CRLF, the `Content-Disposition`
header with the quoted name and (for file fields only) the quoted file
name, CRLF CRLF, the raw payload bytes, CRLF. -/
def specFieldBlock (boundary : String) (name : String) (file_name : Option String)
    (payload : List Nat) : List Nat :=
  strBytes ("--" ++ boundary) ++ strBytes "\r\n"
  ++ strBytes ("Content-Disposition: form-data; name=\x22" ++ quote name ++ "\x22")
  ++ (match file_name with
      | some fn => strBytes ("; filename=\x22" ++ quote fn ++ "\x22")
      | none => [])
  ++ strBytes "\r\n" ++ strBytes "\r\n" ++ payload ++ strBytes "\r\n"

/-- The full wire format of the specification (§6): every field block in
order, then the closing boundary with no trailing CRLF. -/
def specSerialize (boundary : String) (fields : List (String × Option String × List Nat)) :
    List Nat :=
  (fields.flatMap fun nfp => specFieldBlock boundary nfp.1 nfp.2.1 nfp.2.2)
  ++ strBytes ("--" ++ boundary ++ "--")

theorem strBytes_append (a b : String) : strBytes (a ++ b) = strBytes a ++ strBytes b := by
  show (a.data ++ b.data).flatMap utf8Bytes = _
  exact List.flatMap_append a.data b.data utf8Bytes

/-- **C2.** `Form::bytes` produces exactly the wire format of the spec:
for every form, the output is the in-order concatenation of the per-field
blocks followed by the closing boundary; and on the concrete example form
(text field `data` with payload `{...}`, then file field `file` /
`a.txt` with payload `hello`) the output is exactly the byte string of
the specification, with `B` the form's boundary. -/
theorem form_bytes_wire_format :
    (∀ f : Form, f.bytes
        = specSerialize f.boundary (f.fields.map fun kd => (kd.1.name, kd.1.file_name, kd.2)))
    ∧ ((Form.new.text "data" "\x7b...\x7d").file "file" "a.txt" (strBytes "hello")).bytes
        = strBytes ("--" ++ Form.new.boundary
            ++ "\r\nContent-Disposition: form-data; name=\x22data\x22\r\n\r\n\x7b...\x7d\r\n--"
            ++ Form.new.boundary
            ++ "\r\nContent-Disposition: form-data; name=\x22file\x22; filename=\x22a.txt\x22\r\n\r\nhello\r\n--"
            ++ Form.new.boundary ++ "--") := by
  constructor
  · intro f
    show _ = (f.fields.map fun kd => (kd.1.name, kd.1.file_name, kd.2)).flatMap _ ++ _
    rw [List.flatMap_map]
    unfold Form.bytes
    simp only [strBytes_append, List.append_assoc]
    congr 1
    apply List.flatMap_congr
    intro kd _
    unfold specFieldBlock
    cases kd.1.file_name <;> simp [strBytes_append, List.append_assoc]
  · decide

/-- **C8.** `quote` inserts exactly one backslash before each backslash,
carriage return or double quote and passes every other character through
unchanged; it is the identity on strings with none of those characters;
and `content_type` embeds the quoted boundary in
`multipart/form-data; boundary="..."`. -/
theorem quote_spec (s : String) :
    (quote s).data
      = s.data.flatMap (fun c => if c = '\\' ∨ c = '\r' ∨ c = '\x22' then ['\\', c] else [c])
    ∧ ((∀ c ∈ s.data, ¬(c = '\\' ∨ c = '\r' ∨ c = '\x22')) → quote s = s)
    ∧ (∀ f : Form, f.content_type = "multipart/form-data; boundary=\x22" ++ quote f.boundary ++ "\x22") := by
  have key : ∀ (l : List Char) (acc : String),
      (l.foldl (fun result c =>
          if c = '\\' ∨ c = '\r' ∨ c = '\x22' then (result.push '\\').push c
          else result.push c) acc).data
        = acc.data ++ l.flatMap (fun c =>
            if c = '\\' ∨ c = '\r' ∨ c = '\x22' then ['\\', c] else [c]) := by
    intro l
    induction l with
    | nil => intro acc; simp
    | cons c t ih =>
      intro acc
      simp only [List.foldl_cons, List.flatMap_cons]
      by_cases h : c = '\\' ∨ c = '\r' ∨ c = '\x22'
      · rw [if_pos h, ih]
        simp [String.push, if_pos h]
      · rw [if_neg h, ih]
        simp [String.push, if_neg h]
  have h1 : (quote s).data
      = s.data.flatMap (fun c =>
          if c = '\\' ∨ c = '\r' ∨ c = '\x22' then ['\\', c] else [c]) := by
    have := key s.data ""
    simpa [quote] using this
  refine ⟨h1, ?_, ?_⟩
  · intro hclean
    apply String.ext
    rw [h1]
    calc s.data.flatMap (fun c =>
          if c = '\\' ∨ c = '\r' ∨ c = '\x22' then ['\\', c] else [c])
        = s.data.flatMap (fun c => [c]) := by
          apply List.flatMap_congr
          intro c hc
          simp [hclean c hc]
      _ = s.data := by simp
  · intro f
    rfl

/-- Witness for `quote_spec`: on a string with no special characters,
`quote` is the identity. -/
theorem quote_spec_witness : quote "abc" = "abc" :=
  (quote_spec "abc").2.1 (by decide)

/-- **C9.** An empty form serialises to exactly `--` boundary `--`, with
no carriage return and no line feed anywhere in the output (hence no
CRLF and no `Content-Disposition` header). -/
theorem empty_form_bytes :
    Form.new.bytes = strBytes ("--" ++ Form.new.boundary ++ "--")
    ∧ ¬ (13 : Nat) ∈ Form.new.bytes ∧ ¬ (10 : Nat) ∈ Form.new.bytes := by
  decide

/-- A builder call on a form: either `Form::text` or `Form::file`. -/
inductive FormOp where
  | text (name val : String)
  | file (name file_name : String) (data : List Nat)

/-- Applies one builder call to a form. -/
def applyOp (f : Form) : FormOp → Form
  | FormOp.text n v => f.text n v
  | FormOp.file n fn d => f.file n fn d

/-- Applies a sequence of builder calls to a form, in order. -/
def applyOps (ops : List FormOp) (f : Form) : Form := ops.foldl applyOp f

theorem applyOps_boundary (ops : List FormOp) : ∀ f : Form, (applyOps ops f).boundary = f.boundary := by
  induction ops with
  | nil => intro f; rfl
  | cons op t ih =>
    intro f
    show (applyOps t (applyOp f op)).boundary = _
    rw [ih (applyOp f op)]
    cases op <;> rfl

/-- **C10.** Every form built from `Form::new` by any sequence of
`text`/`file` calls keeps the hard-coded boundary, its `content_type` is
the fixed constant string, and two runs of the same builder-call
sequence produce byte-identical serialised output. -/
theorem fixed_boundary_deterministic :
    (∀ ops : List FormOp, (applyOps ops Form.new).boundary = "-sdsaddsfgdghhskjtretyetertertedh?-")
    ∧ (∀ ops : List FormOp, (applyOps ops Form.new).content_type
        = "multipart/form-data; boundary=\x22-sdsaddsfgdghhskjtretyetertertedh?-\x22")
    ∧ (∀ ops1 ops2 : List FormOp, ops1 = ops2 →
        (applyOps ops1 Form.new).bytes = (applyOps ops2 Form.new).bytes) := by
  refine ⟨fun ops => applyOps_boundary ops Form.new, fun ops => ?_, fun ops1 ops2 h => by rw [h]⟩
  show "multipart/form-data; boundary=\x22" ++ quote (applyOps ops Form.new).boundary ++ "\x22" = _
  rw [applyOps_boundary ops Form.new]
  decide

/-- Witness for `fixed_boundary_deterministic` at the empty call
sequence. -/
theorem fixed_boundary_deterministic_witness :
    (applyOps [] Form.new).content_type
      = "multipart/form-data; boundary=\x22-sdsaddsfgdghhskjtretyetertertedh?-\x22"
    ∧ (applyOps [] Form.new).bytes = (applyOps [] Form.new).bytes :=
  ⟨fixed_boundary_deterministic.2.1 [], fixed_boundary_deterministic.2.2 [] [] rfl⟩

/-! ## Template engine (`src/template.rs`)

The Rust parser keeps the full character vector plus a cursor; here the
state keeps the full source string (used when building diagnostics) and
the not-yet-consumed suffix of characters, together with the running
byte offset. `peek` reads the head of the suffix, `next` consumes it and
advances the byte offset by the character's UTF-8 length, exactly as in
the Rust code. -/

/-- A part of a parsed template: literal text or a variable reference. -/
inductive TemplatePart where
  | Text (content : String)
  | Variable (name : String)
deriving DecidableEq

/-- A parsed template (`Template` in `template.rs`). -/
structure Template where
  parts : List TemplatePart
deriving DecidableEq

/-- A diagnostic span: byte offset and byte length (miette `SourceSpan`,
built from `(start, length)` pairs in `span_from`). -/
structure Span where
  start : Nat
  len : Nat
deriving DecidableEq

/-- `ParseError` from `template.rs`: message, full source snapshot, span,
and optional chained cause. -/
inductive ParseError where
  | mk (msg : String) (src : String) (span : Span) (cause : Option ParseError)

/-- The error message. -/
def ParseError.msg : ParseError → String
  | ParseError.mk m _ _ _ => m

/-- The source snapshot. -/
def ParseError.src : ParseError → String
  | ParseError.mk _ s _ _ => s

/-- The diagnostic span. -/
def ParseError.span : ParseError → Span
  | ParseError.mk _ _ sp _ => sp

/-- The chained cause, if any. -/
def ParseError.cause : ParseError → Option ParseError
  | ParseError.mk _ _ _ c => c

/-- `ParseError::and_then`: wraps the error in a new context message,
keeping the span and source and chaining the old error as the cause. -/
def ParseError.and_then (e : ParseError) (msg : String) : ParseError :=
  ParseError.mk msg e.src e.span (some e)

/-- `ParseError::with_span`: replaces the span. -/
def ParseError.with_span (e : ParseError) (span : Span) : ParseError :=
  ParseError.mk e.msg e.src span e.cause

/-- Rust `char::is_ascii_alphanumeric`: `0-9`, `A-Z`, `a-z`. -/
def is_ascii_alphanumeric (c : Char) : Bool :=
  (0x30 ≤ c.toNat && c.toNat ≤ 0x39) || (0x41 ≤ c.toNat && c.toNat ≤ 0x5a) ||
  (0x61 ≤ c.toNat && c.toNat ≤ 0x7a)

/-- `TemplateParser::is_valid_variable_char`. -/
def is_valid_variable_char (c : Char) : Bool :=
  is_ascii_alphanumeric c || c = '_' || c = '.'

/-- Rust `char::is_whitespace`: the Unicode `White_Space` property. -/
def rust_is_whitespace (c : Char) : Bool :=
  let n := c.toNat
  n = 0x09 || n = 0x0a || n = 0x0b || n = 0x0c || n = 0x0d || n = 0x20 ||
  n = 0x85 || n = 0xa0 || n = 0x1680 || (0x2000 ≤ n && n ≤ 0x200a) ||
  n = 0x2028 || n = 0x2029 || n = 0x202f || n = 0x205f || n = 0x3000

/-- The parser state (`TemplateParser` in `template.rs`): the full input
(as a string, for diagnostics), the unconsumed suffix of the character
sequence, and the running byte offset. -/
structure TemplateParser where
  src : String
  rest : List Char
  byteOffset : Nat

/-- `TemplateParser::new`. -/
def TemplateParser.new (input : String) : TemplateParser :=
  { src := input, rest := input.data, byteOffset := 0 }

/-- `TemplateParser::has_next`. -/
def TemplateParser.has_next (st : TemplateParser) : Bool :=
  !st.rest.isEmpty

/-- `TemplateParser::parse_error`: an error with no cause whose span runs
from `start_offset` to the current byte offset. -/
def TemplateParser.parse_error (st : TemplateParser) (msg : String) (start_offset : Nat) :
    ParseError :=
  ParseError.mk msg st.src (Span.mk start_offset (st.byteOffset - start_offset)) none

/-- `TemplateParser::span_from`. -/
def TemplateParser.span_from (st : TemplateParser) (start_offset : Nat) : Span :=
  Span.mk start_offset (st.byteOffset - start_offset)

/-- Consuming one character: drop it from the suffix and advance the byte
offset by its UTF-8 length. -/
def TemplateParser.advance (st : TemplateParser) (c : Char) (r : List Char) : TemplateParser :=
  { st with rest := r, byteOffset := st.byteOffset + utf8Len c }

/-- `TemplateParser::peek`. -/
def TemplateParser.peek (st : TemplateParser) : Except ParseError Char :=
  match st.rest with
  | [] => Except.error (st.parse_error "Cannot peek: reached end of text" st.byteOffset)
  | c :: _ => Except.ok c

/-- `TemplateParser::next`. -/
def TemplateParser.next (st : TemplateParser) : Except ParseError (Char × TemplateParser) :=
  match st.rest with
  | [] => Except.error (st.parse_error "Cannot read: reached end of text" st.byteOffset)
  | c :: r => Except.ok (c, st.advance c r)

/-- `TemplateParser::parse_escape`: reads one character (wrapping an
end-of-input failure in a "Could not read escape" context); backslash and
dollar map to themselves, anything else keeps the backslash. -/
def TemplateParser.parse_escape (st : TemplateParser) :
    Except ParseError (String × TemplateParser) :=
  match st.next with
  | Except.error e => Except.error (e.and_then "Could not read escape")
  | Except.ok (c, st1) =>
      Except.ok
        (if c = '\\' then "\\" else if c = '$' then "$" else "\\" ++ String.singleton c, st1)

/-- The loop body of `TemplateParser::parse_variable_name`: while the next
character is a valid variable character, consume it into `out`. (The Rust
loop exits when `peek` fails at end of input; the `next` call inside the
loop follows a successful `peek` and therefore never fails, so the result
is pure.) Recursion is on the unconsumed suffix. -/
def varNameLoop (src : String) (rest : List Char) (off : Nat) (out : String) :
    String × TemplateParser :=
  match rest with
  | [] => (out, TemplateParser.mk src [] off)
  | c :: r =>
    if is_valid_variable_char c then varNameLoop src r (off + utf8Len c) (out.push c)
    else (out, TemplateParser.mk src (c :: r) off)

/-- `TemplateParser::parse_variable_name` (always succeeds; see
`varNameLoop`). -/
def TemplateParser.parse_variable_name (st : TemplateParser) (out : String) :
    String × TemplateParser :=
  varNameLoop st.src st.rest st.byteOffset out

/-- The leading-whitespace loop of `parse_variable_in_brackets`:
`while self.peek()?.is_whitespace() { self.next()?; }` — consumes
whitespace, and propagates the end-of-input `peek` error if the input
runs out while still skipping. -/
def skipLeadingWsLoop (src : String) (rest : List Char) (off : Nat) :
    Except ParseError TemplateParser :=
  match rest with
  | [] =>
    Except.error (ParseError.mk "Cannot peek: reached end of text" src (Span.mk off 0) none)
  | c :: r =>
    if rust_is_whitespace c then skipLeadingWsLoop src r (off + utf8Len c)
    else Except.ok (TemplateParser.mk src (c :: r) off)

/-- The trailing-whitespace loop of `parse_variable_in_brackets`:
`while self.has_next() && self.peek()?.is_whitespace() { self.next()?; }`
— stops quietly at end of input. -/
def skipTrailingWsLoop (src : String) (rest : List Char) (off : Nat) : TemplateParser :=
  match rest with
  | [] => TemplateParser.mk src [] off
  | c :: r =>
    if rust_is_whitespace c then skipTrailingWsLoop src r (off + utf8Len c)
    else TemplateParser.mk src (c :: r) off

/-- `TemplateParser::parse_variable_in_brackets` (called with the cursor
just past the opening `{`; `start` is the byte offset of the `{`). -/
def TemplateParser.parse_variable_in_brackets (st : TemplateParser) (start : Nat) :
    Except ParseError (TemplatePart × TemplateParser) :=
  match skipLeadingWsLoop st.src st.rest st.byteOffset with
  | Except.error e => Except.error e
  | Except.ok st1 =>
    let var_name_start := st1.byteOffset
    let vn := st1.parse_variable_name ""
    if vn.1 = "" then
      Except.error (vn.2.parse_error "No variable name found inside brackets" var_name_start)
    else
      let st3 := skipTrailingWsLoop vn.2.src vn.2.rest vn.2.byteOffset
      match st3.next with
      | Except.ok (c, st4) =>
        if c = '\x7d' then Except.ok (TemplatePart.Variable vn.1, st4)
        else Except.error (st4.parse_error "Unclosed brackets" start)
      | Except.error err =>
        Except.error ((err.and_then "Unclosed brackets").with_span (st3.span_from start))

/-- `TemplateParser::parse_variable` (called with the cursor just past the
`$`; `start` is recorded before reading the next character, i.e. it is
the byte offset just past the `$`). -/
def TemplateParser.parse_variable (st : TemplateParser) :
    Except ParseError (TemplatePart × TemplateParser) :=
  let start := st.byteOffset
  match st.next with
  | Except.error e => Except.error e
  | Except.ok (c, st1) =>
    if c = '\x7b' then st1.parse_variable_in_brackets start
    else if is_valid_variable_char c then
      let vn := st1.parse_variable_name (String.singleton c)
      Except.ok (TemplatePart.Variable vn.1, vn.2)
    else
      Except.error (st1.parse_error
        ("Expected variable name or curly brackets after $, found " ++ String.singleton c) start)

theorem varNameLoop_rest_le (src : String) :
    ∀ (rest : List Char) (off : Nat) (out : String),
      (varNameLoop src rest off out).2.rest.length ≤ rest.length := by
  intro rest
  induction rest with
  | nil => intro off out; simp [varNameLoop]
  | cons c r ih =>
    intro off out
    by_cases h : is_valid_variable_char c
    · simp only [varNameLoop, if_pos h]
      exact Nat.le_succ_of_le (ih (off + utf8Len c) (out.push c))
    · simp [varNameLoop, if_neg h]

theorem skipLeadingWsLoop_rest_le (src : String) :
    ∀ (rest : List Char) (off : Nat) (st1 : TemplateParser),
      skipLeadingWsLoop src rest off = Except.ok st1 → st1.rest.length ≤ rest.length := by
  intro rest
  induction rest with
  | nil => intro off st1 h; simp [skipLeadingWsLoop] at h
  | cons c r ih =>
    intro off st1 h
    by_cases hw : rust_is_whitespace c
    · rw [skipLeadingWsLoop, if_pos hw] at h
      exact Nat.le_succ_of_le (ih (off + utf8Len c) st1 h)
    · rw [skipLeadingWsLoop, if_neg hw] at h
      cases h
      simp

theorem skipTrailingWsLoop_rest_le (src : String) :
    ∀ (rest : List Char) (off : Nat),
      (skipTrailingWsLoop src rest off).rest.length ≤ rest.length := by
  intro rest
  induction rest with
  | nil => intro off; simp [skipTrailingWsLoop]
  | cons c r ih =>
    intro off
    by_cases hw : rust_is_whitespace c
    · simp only [skipTrailingWsLoop, if_pos hw]
      exact Nat.le_succ_of_le (ih (off + utf8Len c))
    · simp [skipTrailingWsLoop, if_neg hw]

theorem next_rest_lt (st : TemplateParser) (c : Char) (st1 : TemplateParser)
    (h : st.next = Except.ok (c, st1)) : st1.rest.length < st.rest.length := by
  unfold TemplateParser.next at h
  match hr : st.rest with
  | [] => rw [hr] at h; cases h
  | a :: r =>
    rw [hr] at h
    cases h
    simp [TemplateParser.advance, hr]

theorem parse_variable_in_brackets_rest_le (st : TemplateParser) (start : Nat)
    (p : TemplatePart) (st1 : TemplateParser)
    (h : st.parse_variable_in_brackets start = Except.ok (p, st1)) :
    st1.rest.length ≤ st.rest.length := by
  unfold TemplateParser.parse_variable_in_brackets at h
  match hskip : skipLeadingWsLoop st.src st.rest st.byteOffset with
  | Except.error e => rw [hskip] at h; cases h
  | Except.ok stA =>
    rw [hskip] at h
    simp only at h
    have hA : stA.rest.length ≤ st.rest.length := skipLeadingWsLoop_rest_le st.src st.rest st.byteOffset stA hskip
    by_cases hempty : (stA.parse_variable_name "").1 = ""
    · rw [if_pos hempty] at h; cases h
    · rw [if_neg hempty] at h
      have hB : (stA.parse_variable_name "").2.rest.length ≤ stA.rest.length :=
        varNameLoop_rest_le stA.src stA.rest stA.byteOffset ""
      set stB := (stA.parse_variable_name "").2 with hstB
      have hC : (skipTrailingWsLoop stB.src stB.rest stB.byteOffset).rest.length ≤ stB.rest.length :=
        skipTrailingWsLoop_rest_le stB.src stB.rest stB.byteOffset
      set stC := skipTrailingWsLoop stB.src stB.rest stB.byteOffset with hstC
      match hnext : stC.next with
      | Except.error e => rw [hnext] at h; cases h
      | Except.ok (c, stD) =>
        rw [hnext] at h
        simp only at h
        have hD : stD.rest.length < stC.rest.length := next_rest_lt stC c stD hnext
        by_cases hc : c = '\x7d'
        · rw [if_pos hc] at h
          cases h
          omega
        · rw [if_neg hc] at h; cases h

theorem parse_variable_rest_le (st : TemplateParser) (p : TemplatePart) (st1 : TemplateParser)
    (h : st.parse_variable = Except.ok (p, st1)) : st1.rest.length ≤ st.rest.length := by
  unfold TemplateParser.parse_variable at h
  match hnext : st.next with
  | Except.error e => rw [hnext] at h; cases h
  | Except.ok (c, stA) =>
    rw [hnext] at h
    simp only at h
    have hA : stA.rest.length < st.rest.length := next_rest_lt st c stA hnext
    by_cases hc : c = '\x7b'
    · rw [if_pos hc] at h
      have := parse_variable_in_brackets_rest_le stA st.byteOffset p st1 h
      omega
    · rw [if_neg hc] at h
      by_cases hv : is_valid_variable_char c
      · rw [if_pos hv] at h
        cases h
        calc (stA.parse_variable_name (String.singleton c)).2.rest.length
            ≤ stA.rest.length :=
              varNameLoop_rest_le stA.src stA.rest stA.byteOffset (String.singleton c)
          _ ≤ st.rest.length := Nat.le_of_lt hA
      · rw [if_neg hv] at h; cases h

theorem parse_escape_rest_le (st : TemplateParser) (s : String) (st1 : TemplateParser)
    (h : st.parse_escape = Except.ok (s, st1)) : st1.rest.length ≤ st.rest.length := by
  unfold TemplateParser.parse_escape at h
  match hnext : st.next with
  | Except.error e => rw [hnext] at h; cases h
  | Except.ok (c, stA) =>
    rw [hnext] at h
    cases h
    exact Nat.le_of_lt (next_rest_lt st c _ hnext)

/-- The main loop of `TemplateParser::parse`: accumulate ordinary
characters into `buffer`, dispatch `\` to `parse_escape` (appending its
result to the buffer) and `$` to `parse_variable` (flushing a non-empty
buffer as a `Text` part first); at end of input flush any non-empty
buffer. -/
def parseLoop (src : String) (rest : List Char) (off : Nat) (buffer : String)
    (result : List TemplatePart) : Except ParseError (List TemplatePart) :=
  match rest with
  | [] => Except.ok (if buffer = "" then result else result ++ [TemplatePart.Text buffer])
  | c :: r =>
    if c = '\\' then
      match hesc : TemplateParser.parse_escape (TemplateParser.mk src r (off + utf8Len c)) with
      | Except.error e => Except.error e
      | Except.ok (s, st2) => parseLoop src st2.rest st2.byteOffset (buffer ++ s) result
    else if c = '$' then
      match hvar : TemplateParser.parse_variable (TemplateParser.mk src r (off + utf8Len c)) with
      | Except.error e => Except.error e
      | Except.ok (part, st2) =>
        parseLoop src st2.rest st2.byteOffset ""
          ((if buffer = "" then result else result ++ [TemplatePart.Text buffer]) ++ [part])
    else
      parseLoop src r (off + utf8Len c) (buffer.push c) result
termination_by rest.length
decreasing_by
  · have h := parse_escape_rest_le _ _ _ hesc
    simp at h ⊢
    omega
  · have h := parse_variable_rest_le _ _ _ hvar
    simp at h ⊢
    omega
  · simp

/-- `TemplateParser::parse`, started on a fresh parser for the input. -/
def parseTemplate (input : String) : Except ParseError (List TemplatePart) :=
  parseLoop input input.data 0 "" []

/-- `Template::parse`. In the Rust code the returned `miette` report also
carries a caller-side context message ("Could not parse template") around
the `ParseError` diagnostic; the structured diagnostic itself is the
value modelled here. -/
def Template.parse (input : String) : Except ParseError Template :=
  Except.map Template.mk (parseTemplate input)

/-- The loop of `Template::resolve`: concatenate literal text verbatim
and looked-up variable values in order; fail on the first variable the
lookup cannot resolve, naming it in the error message. The `miette`
report produced by the Rust code is modelled by its message string. -/
def resolveLoop (parts : List TemplatePart) (lookup : String → Option String)
    (result : String) : Except String String :=
  match parts with
  | [] => Except.ok result
  | TemplatePart.Text text :: ps => resolveLoop ps lookup (result ++ text)
  | TemplatePart.Variable v :: ps =>
    match lookup v with
    | some s => resolveLoop ps lookup (result ++ s)
    | none => Except.error ("Could not resolve variable \x27" ++ v ++ "\x27 in template")

/-- `Template::resolve`. -/
def Template.resolve (t : Template) (lookup : String → Option String) : Except String String :=
  resolveLoop t.parts lookup ""

/-! ## Helper lemmas about characters, strings and the parser loops -/

theorem strData_append (a b : String) : (a ++ b).data = a.data ++ b.data := rfl

theorem string_mk_eq_empty (l : List Char) : (String.mk l = "") ↔ l = [] := by
  constructor
  · intro h
    have := congrArg String.data h
    simpa using this
  · intro h
    rw [h]

/-- Total UTF-8 byte length of a character list (the amount the byte
offset advances while consuming it). -/
def utf8LenSum (l : List Char) : Nat :=
  (l.map utf8Len).sum

theorem utf8LenSum_nil : utf8LenSum [] = 0 := rfl

theorem utf8LenSum_cons (c : Char) (l : List Char) :
    utf8LenSum (c :: l) = utf8Len c + utf8LenSum l := by
  simp [utf8LenSum]

/-- Facts about valid variable characters: not whitespace, none of the
parser's special characters, and one UTF-8 byte (they are ASCII). -/
theorem valid_char_facts (c : Char) (h : is_valid_variable_char c = true) :
    rust_is_whitespace c = false ∧ c ≠ '\x7d' ∧ c ≠ '\x7b' ∧ c ≠ '\\' ∧ c ≠ '$'
    ∧ utf8Len c = 1 := by
  by_cases h1 : c = '_'
  · subst h1; refine ⟨by decide, by decide, by decide, by decide, by decide, by decide⟩
  by_cases h2 : c = '.'
  · subst h2; refine ⟨by decide, by decide, by decide, by decide, by decide, by decide⟩
  simp [is_valid_variable_char, is_ascii_alphanumeric, h1, h2] at h
  refine ⟨?_, ?_, ?_, ?_, ?_, ?_⟩
  · simp [rust_is_whitespace]; omega
  · intro hc; subst hc; exact absurd h (by decide)
  · intro hc; subst hc; exact absurd h (by decide)
  · intro hc; subst hc; exact absurd h (by decide)
  · intro hc; subst hc; exact absurd h (by decide)
  · simp [utf8Len]; omega

/-- Facts about whitespace characters: not valid variable characters and
none of the parser's special characters. -/
theorem ws_char_facts (c : Char) (h : rust_is_whitespace c = true) :
    is_valid_variable_char c = false ∧ c ≠ '\x7d' ∧ c ≠ '\x7b' ∧ c ≠ '\\' ∧ c ≠ '$' := by
  simp [rust_is_whitespace] at h
  refine ⟨?_, ?_, ?_, ?_, ?_⟩
  · have hne1 : c ≠ '_' := by intro hc; subst hc; exact absurd h (by decide)
    have hne2 : c ≠ '.' := by intro hc; subst hc; exact absurd h (by decide)
    simp [is_valid_variable_char, is_ascii_alphanumeric, hne1, hne2]
    omega
  · intro hc; subst hc; exact absurd h (by decide)
  · intro hc; subst hc; exact absurd h (by decide)
  · intro hc; subst hc; exact absurd h (by decide)
  · intro hc; subst hc; exact absurd h (by decide)

/-- `varNameLoop` consumes exactly a maximal run of valid variable
characters: given `name` all valid and the following character (if any)
invalid, it appends `name` to `out` and advances the offset by the UTF-8
length of `name`. -/
theorem varNameLoop_spec (src : String) :
    ∀ (name rest : List Char) (off : Nat) (out : String),
      (∀ c ∈ name, is_valid_variable_char c = true) →
      (∀ c ∈ rest.head?, is_valid_variable_char c = false) →
      varNameLoop src (name ++ rest) off out
        = (String.mk (out.data ++ name),
           TemplateParser.mk src rest (off + utf8LenSum name)) := by
  intro name
  induction name with
  | nil =>
    intro rest off out _ hrest
    match rest with
    | [] => simp [varNameLoop, utf8LenSum]
    | c :: r =>
      have hc : is_valid_variable_char c = false := hrest c (by simp)
      simp [varNameLoop, hc, utf8LenSum]
  | cons c name' ih =>
    intro rest off out hvalid hrest
    have hc : is_valid_variable_char c = true := hvalid c (by simp)
    show varNameLoop src (c :: (name' ++ rest)) off out = _
    rw [varNameLoop, if_pos hc]
    rw [ih rest (off + utf8Len c) (out.push c) (fun d hd => hvalid d (by simp [hd])) hrest]
    simp [String.push, utf8LenSum_cons]
    omega

/-- The leading-whitespace skipper consumes exactly a maximal whitespace
run when a non-whitespace character follows. -/
theorem skipLeadingWsLoop_spec (src : String) :
    ∀ (ws rest : List Char) (off : Nat),
      (∀ c ∈ ws, rust_is_whitespace c = true) →
      (∀ c ∈ rest.head?, rust_is_whitespace c = false) →
      rest ≠ [] →
      skipLeadingWsLoop src (ws ++ rest) off
        = Except.ok (TemplateParser.mk src rest (off + utf8LenSum ws)) := by
  intro ws
  induction ws with
  | nil =>
    intro rest off _ hrest hne
    match rest with
    | [] => exact absurd rfl hne
    | c :: r =>
      have hc : rust_is_whitespace c = false := hrest c (by simp)
      simp [skipLeadingWsLoop, hc, utf8LenSum]
  | cons c ws' ih =>
    intro rest off hws hrest hne
    have hc : rust_is_whitespace c = true := hws c (by simp)
    show skipLeadingWsLoop src (c :: (ws' ++ rest)) off = _
    rw [skipLeadingWsLoop, if_pos hc]
    rw [ih rest (off + utf8Len c) (fun d hd => hws d (by simp [hd])) hrest hne]
    simp [utf8LenSum_cons]
    omega

/-- The trailing-whitespace skipper consumes exactly a maximal whitespace
run (stopping quietly at end of input). -/
theorem skipTrailingWsLoop_spec (src : String) :
    ∀ (ws rest : List Char) (off : Nat),
      (∀ c ∈ ws, rust_is_whitespace c = true) →
      (∀ c ∈ rest.head?, rust_is_whitespace c = false) →
      skipTrailingWsLoop src (ws ++ rest) off
        = TemplateParser.mk src rest (off + utf8LenSum ws) := by
  intro ws
  induction ws with
  | nil =>
    intro rest off _ hrest
    match rest with
    | [] => simp [skipTrailingWsLoop, utf8LenSum]
    | c :: r =>
      have hc : rust_is_whitespace c = false := hrest c (by simp)
      simp [skipTrailingWsLoop, hc, utf8LenSum]
  | cons c ws' ih =>
    intro rest off hws hrest
    have hc : rust_is_whitespace c = true := hws c (by simp)
    show skipTrailingWsLoop src (c :: (ws' ++ rest)) off = _
    rw [skipTrailingWsLoop, if_pos hc]
    rw [ih rest (off + utf8Len c) (fun d hd => hws d (by simp [hd])) hrest]
    simp [utf8LenSum_cons]
    omega

/-- On input containing neither backslash nor dollar, the parse loop
accumulates everything into the buffer and flushes a single `Text` part
(or nothing when buffer and input are both empty). -/
theorem parseLoop_literal (src : String) :
    ∀ (rest : List Char) (off : Nat) (buffer : String) (result : List TemplatePart),
      (∀ c ∈ rest, c ≠ '\\' ∧ c ≠ '$') →
      parseLoop src rest off buffer result
        = Except.ok (if buffer.data ++ rest = [] then result
            else result ++ [TemplatePart.Text (String.mk (buffer.data ++ rest))]) := by
  intro rest
  induction rest with
  | nil =>
    intro off buffer result _
    rw [parseLoop]
    by_cases hb : buffer = ""
    · subst hb; simp
    · rw [if_neg hb]
      have hdata : ¬ buffer.data = [] := by
        intro hd
        exact hb (String.ext hd)
      simp [hdata]
  | cons c r ih =>
    intro off buffer result h
    have hc := h c (by simp)
    rw [parseLoop, if_neg hc.1, if_neg hc.2]
    rw [ih (off + utf8Len c) (buffer.push c) result (fun d hd => h d (by simp [hd]))]
    simp [String.push]

/-- **C1.** For every string with no backslash and no dollar sign,
parsing succeeds and resolving the parsed template with any lookup
(the template has no variables, so also one returning `none` everywhere)
returns the original string unchanged. -/
theorem literal_round_trip (s : String) (h : ∀ c ∈ s.data, c ≠ '\\' ∧ c ≠ '$') :
    ∃ t : Template, Template.parse s = Except.ok t
      ∧ ∀ lookup : String → Option String, t.resolve lookup = Except.ok s := by
  have hp := parseLoop_literal s s.data 0 "" [] h
  by_cases hs : s.data = []
  · refine ⟨Template.mk [], ?_, ?_⟩
    · unfold Template.parse parseTemplate
      rw [hp]
      simp [hs]
      rfl
    · intro lookup
      have hse : s = "" := String.ext hs
      subst hse
      rfl
  · refine ⟨Template.mk [TemplatePart.Text s], ?_, ?_⟩
    · unfold Template.parse parseTemplate
      rw [hp]
      simp [hs]
      rfl
    · intro lookup
      show resolveLoop [TemplatePart.Text s] lookup "" = Except.ok s
      simp [resolveLoop]

/-- Witness for `literal_round_trip` on `"hello world"` with the lookup
that always returns `none`. -/
theorem literal_round_trip_witness :
    ∃ t : Template, Template.parse "hello world" = Except.ok t
      ∧ ∀ lookup : String → Option String, t.resolve lookup = Except.ok "hello world" :=
  literal_round_trip "hello world" (by decide)

/-- The value a single template part contributes to resolution (literal
text, or the looked-up value of a variable). -/
def resolvedText (lookup : String → Option String) : TemplatePart → String
  | TemplatePart.Text t => t
  | TemplatePart.Variable v => (lookup v).getD ""

/-- The in-order concatenation of all parts' resolved values. -/
def resolvedConcat (lookup : String → Option String) (parts : List TemplatePart) : String :=
  parts.foldr (fun p acc => resolvedText lookup p ++ acc) ""

theorem resolveLoop_ok (lookup : String → Option String) :
    ∀ (parts : List TemplatePart) (acc : String),
      (∀ v, TemplatePart.Variable v ∈ parts → (lookup v).isSome) →
      resolveLoop parts lookup acc = Except.ok (acc ++ resolvedConcat lookup parts) := by
  intro parts
  induction parts with
  | nil =>
    intro acc _
    simp [resolveLoop, resolvedConcat, String.append_empty]
  | cons p ps ih =>
    intro acc hall
    match p with
    | TemplatePart.Text t =>
      rw [show resolveLoop (TemplatePart.Text t :: ps) lookup acc
            = resolveLoop ps lookup (acc ++ t) from rfl]
      rw [ih (acc ++ t) (fun v hv => hall v (by simp [hv]))]
      simp [resolvedConcat, resolvedText, String.append_assoc]
    | TemplatePart.Variable v =>
      have hv : (lookup v).isSome := hall v (by simp)
      match hlv : lookup v with
      | some s =>
        rw [show resolveLoop (TemplatePart.Variable v :: ps) lookup acc
              = match lookup v with
                | some s => resolveLoop ps lookup (acc ++ s)
                | none => Except.error ("Could not resolve variable \x27" ++ v ++ "\x27 in template")
            from rfl]
        rw [hlv]
        show resolveLoop ps lookup (acc ++ s) = _
        rw [ih (acc ++ s) (fun w hw => hall w (by simp [hw]))]
        simp [resolvedConcat, resolvedText, hlv, String.append_assoc]
      | none => rw [hlv] at hv; cases hv

theorem resolveLoop_err (lookup : String → Option String) :
    ∀ (pre : List TemplatePart) (v : String) (suf : List TemplatePart) (acc : String),
      lookup v = none →
      (∀ w, TemplatePart.Variable w ∈ pre → (lookup w).isSome) →
      resolveLoop (pre ++ TemplatePart.Variable v :: suf) lookup acc
        = Except.error ("Could not resolve variable \x27" ++ v ++ "\x27 in template") := by
  intro pre
  induction pre with
  | nil =>
    intro v suf acc hv _
    simp [resolveLoop, hv]
  | cons p pre' ih =>
    intro v suf acc hv hall
    match p with
    | TemplatePart.Text t =>
      rw [show resolveLoop ((TemplatePart.Text t :: pre') ++ TemplatePart.Variable v :: suf) lookup acc
            = resolveLoop (pre' ++ TemplatePart.Variable v :: suf) lookup (acc ++ t) from rfl]
      exact ih v suf (acc ++ t) hv (fun w hw => hall w (by simp [hw]))
    | TemplatePart.Variable w =>
      have hw : (lookup w).isSome := hall w (by simp)
      match hlw : lookup w with
      | some s =>
        rw [show resolveLoop ((TemplatePart.Variable w :: pre') ++ TemplatePart.Variable v :: suf) lookup acc
              = match lookup w with
                | some s => resolveLoop (pre' ++ TemplatePart.Variable v :: suf) lookup (acc ++ s)
                | none => Except.error ("Could not resolve variable \x27" ++ w ++ "\x27 in template")
            from rfl]
        rw [hlw]
        exact ih v suf (acc ++ s) hv (fun u hu => hall u (by simp [hu]))
      | none => rw [hlw] at hw; cases hw

theorem first_unresolved (lookup : String → Option String) :
    ∀ (parts : List TemplatePart),
      (∃ v, TemplatePart.Variable v ∈ parts ∧ lookup v = none) →
      ∃ pre v suf, parts = pre ++ TemplatePart.Variable v :: suf ∧ lookup v = none ∧
        (∀ w, TemplatePart.Variable w ∈ pre → (lookup w).isSome) := by
  intro parts
  induction parts with
  | nil =>
    rintro ⟨v, hv, _⟩
    simp at hv
  | cons p ps ih =>
    rintro ⟨v, hv, hnone⟩
    by_cases hp : ∃ w, p = TemplatePart.Variable w ∧ lookup w = none
    · obtain ⟨w, rfl, hw⟩ := hp
      exact ⟨[], w, ps, rfl, hw, by simp⟩
    · have hvps : TemplatePart.Variable v ∈ ps := by
        rcases List.mem_cons.mp hv with h1 | h1
        · exact absurd ⟨v, h1.symm, hnone⟩ hp
        · exact h1
      obtain ⟨pre, v', suf, heq, hn', hpre⟩ := ih ⟨v, hvps, hnone⟩
      refine ⟨p :: pre, v', suf, by rw [heq]; rfl, hn', ?_⟩
      intro w hw
      rcases List.mem_cons.mp hw with h1 | h1
      · rcases hws : lookup w with _ | s
        · exact absurd ⟨w, h1.symm, hws⟩ hp
        · simp [hws]
      · exact hpre w h1

/-- **C7.** `Template::resolve` succeeds exactly when every variable of
the template is resolvable: when all lookups succeed it returns the
in-order concatenation of literal text and looked-up values; when the
first unresolvable variable is `v` it fails with an error naming `v`
(fail-fast: the parts after `v` are irrelevant and no partial output is
returned); and an error occurs if and only if some variable's lookup
returns `none`. -/
theorem resolve_spec (t : Template) (lookup : String → Option String) :
    ((∀ v, TemplatePart.Variable v ∈ t.parts → (lookup v).isSome) →
        t.resolve lookup = Except.ok (resolvedConcat lookup t.parts))
    ∧ (∀ pre v suf, t.parts = pre ++ TemplatePart.Variable v :: suf → lookup v = none →
        (∀ w, TemplatePart.Variable w ∈ pre → (lookup w).isSome) →
        t.resolve lookup
          = Except.error ("Could not resolve variable \x27" ++ v ++ "\x27 in template"))
    ∧ ((∃ e, t.resolve lookup = Except.error e)
        ↔ ∃ v, TemplatePart.Variable v ∈ t.parts ∧ lookup v = none) := by
  refine ⟨?_, ?_, ?_, ?_⟩
  · intro hall
    show resolveLoop t.parts lookup "" = _
    rw [resolveLoop_ok lookup t.parts "" hall]
    rfl
  · intro pre v suf heq hv hpre
    show resolveLoop t.parts lookup "" = _
    rw [heq]
    exact resolveLoop_err lookup pre v suf "" hv hpre
  · rintro ⟨e, he⟩
    by_contra hno
    push_neg at hno
    have hall : ∀ v, TemplatePart.Variable v ∈ t.parts → (lookup v).isSome := by
      intro v hv
      rcases hlv : lookup v with _ | s
      · exact absurd hlv (hno v hv)
      · simp
    have := resolveLoop_ok lookup t.parts "" hall
    rw [show t.resolve lookup = resolveLoop t.parts lookup "" from rfl, this] at he
    cases he
  · rintro ⟨v, hv, hnone⟩
    obtain ⟨pre, v', suf, heq, hn', hpre⟩ := first_unresolved lookup t.parts ⟨v, hv, hnone⟩
    refine ⟨"Could not resolve variable \x27" ++ v' ++ "\x27 in template", ?_⟩
    show resolveLoop t.parts lookup "" = _
    rw [heq]
    exact resolveLoop_err lookup pre v' suf "" hn' hpre

/-- Witness for `resolve_spec`: the spec's own example, a template that
is just `$missing` resolved with a lookup returning `none`. -/
theorem resolve_spec_witness :
    (Template.mk [TemplatePart.Variable "missing"]).resolve (fun _ => none)
      = Except.error ("Could not resolve variable \x27missing\x27 in template") :=
  (resolve_spec (Template.mk [TemplatePart.Variable "missing"]) (fun _ => none)).2.1
    [] "missing" [] rfl rfl (by simp)


/-- One step of the parse loop at end of input. -/
theorem parseLoop_nil (src : String) (off : Nat) (buffer : String)
    (result : List TemplatePart) :
    parseLoop src [] off buffer result
      = Except.ok (if buffer = "" then result else result ++ [TemplatePart.Text buffer]) := by
  rw [parseLoop.eq_def]

/-- One step of the parse loop on an ordinary character. -/
theorem parseLoop_text_step (src : String) (c : Char) (rest : List Char) (off : Nat)
    (buffer : String) (result : List TemplatePart) (h1 : c ≠ '\\') (h2 : c ≠ '$') :
    parseLoop src (c :: rest) off buffer result
      = parseLoop src rest (off + utf8Len c) (buffer.push c) result := by
  rw [parseLoop.eq_def]
  dsimp only
  rw [if_neg h1, if_neg h2]

/-- One step of the parse loop on a backslash whose escape parse
succeeds. -/
theorem parseLoop_escape_step (src : String) (rest : List Char) (off : Nat)
    (buffer : String) (result : List TemplatePart) (s : String) (st2 : TemplateParser)
    (hpe : TemplateParser.parse_escape (TemplateParser.mk src rest (off + utf8Len '\\'))
        = Except.ok (s, st2)) :
    parseLoop src ('\\' :: rest) off buffer result
      = parseLoop src st2.rest st2.byteOffset (buffer ++ s) result := by
  rw [parseLoop.eq_def]
  dsimp only
  rw [if_pos rfl]
  split
  case _ e heq => rw [hpe] at heq; cases heq
  case _ s2 st2b heq =>
    rw [hpe] at heq
    injection heq with h
    cases h
    rfl

/-- One step of the parse loop on a dollar sign whose variable parse
succeeds. -/
theorem parseLoop_var_step (src : String) (rest : List Char) (off : Nat)
    (buffer : String) (result : List TemplatePart) (part : TemplatePart) (st2 : TemplateParser)
    (hpv : TemplateParser.parse_variable (TemplateParser.mk src rest (off + utf8Len '$'))
        = Except.ok (part, st2)) :
    parseLoop src ('$' :: rest) off buffer result
      = parseLoop src st2.rest st2.byteOffset ""
          ((if buffer = "" then result else result ++ [TemplatePart.Text buffer]) ++ [part]) := by
  rw [parseLoop.eq_def]
  dsimp only
  rw [if_neg (by decide), if_pos rfl]
  split
  case _ e heq => rw [hpv] at heq; cases heq
  case _ p st2b heq =>
    rw [hpv] at heq
    injection heq with h
    cases h
    rfl

/-- One step of the parse loop on a dollar sign whose variable parse
fails. -/
theorem parseLoop_var_step_err (src : String) (rest : List Char) (off : Nat)
    (buffer : String) (result : List TemplatePart) (e : ParseError)
    (hpv : TemplateParser.parse_variable (TemplateParser.mk src rest (off + utf8Len '$'))
        = Except.error e) :
    parseLoop src ('$' :: rest) off buffer result = Except.error e := by
  rw [parseLoop.eq_def]
  dsimp only
  rw [if_neg (by decide), if_pos rfl]
  split
  case _ e2 heq =>
    rw [hpv] at heq
    injection heq with h
    rw [h]
  case _ p st2b heq => rw [hpv] at heq; cases heq

/-- `parse_escape` on an unrecognised escape character keeps the
backslash. -/
theorem parse_escape_other (st : TemplateParser) (c : Char) (r : List Char)
    (hrest : st.rest = c :: r) (h1 : c ≠ '\\') (h2 : c ≠ '$') :
    st.parse_escape
      = Except.ok ("\\" ++ String.singleton c,
          TemplateParser.mk st.src r (st.byteOffset + utf8Len c)) := by
  unfold TemplateParser.parse_escape TemplateParser.next
  rw [hrest]
  dsimp only [TemplateParser.advance]
  rw [if_neg h1, if_neg h2]

/-- **C3.** Escape semantics: parsing `\\` yields the literal `\`,
parsing `\$` yields the literal `$`, and a backslash before any other
character keeps the backslash and that character verbatim; in each case
the resolved output (under any lookup) is exactly that literal. -/
theorem escape_semantics (c : Char) :
    (Template.parse "\\\\" = Except.ok (Template.mk [TemplatePart.Text "\\"])
      ∧ ∀ lookup : String → Option String,
          (Template.mk [TemplatePart.Text "\\"]).resolve lookup = Except.ok "\\")
    ∧ (Template.parse "\\$" = Except.ok (Template.mk [TemplatePart.Text "$"])
      ∧ ∀ lookup : String → Option String,
          (Template.mk [TemplatePart.Text "$"]).resolve lookup = Except.ok "$")
    ∧ (c ≠ '\\' → c ≠ '$' →
        Template.parse (String.mk ['\\', c])
          = Except.ok (Template.mk [TemplatePart.Text (String.mk ['\\', c])])
        ∧ ∀ lookup : String → Option String,
            (Template.mk [TemplatePart.Text (String.mk ['\\', c])]).resolve lookup
              = Except.ok (String.mk ['\\', c])) := by
  refine ⟨⟨?_, ?_⟩, ⟨?_, ?_⟩, fun h1 h2 => ⟨?_, ?_⟩⟩
  · simp only [Template.parse, parseTemplate, parseLoop, TemplateParser.parse_escape,
      TemplateParser.next, TemplateParser.advance, utf8Len]
    rfl
  · intro lookup
    rfl
  · simp only [Template.parse, parseTemplate, parseLoop, TemplateParser.parse_escape,
      TemplateParser.next, TemplateParser.advance, utf8Len]
    rfl
  · intro lookup
    rfl
  · have hpe := parse_escape_other
      (TemplateParser.mk (String.mk ['\\', c]) [c] (0 + utf8Len '\\')) c [] rfl h1 h2
    unfold Template.parse parseTemplate
    show Except.map Template.mk (parseLoop (String.mk ['\\', c]) ['\\', c] 0 "" []) = _
    rw [parseLoop_escape_step _ _ _ _ _ _ _ hpe]
    dsimp only
    rw [parseLoop_nil]
    have hne : ("" : String) ++ ("\\" ++ String.singleton c) ≠ "" := by
      intro hemp
      have := congrArg String.data hemp
      simp at this
    rw [if_neg hne]
    rfl
  · intro lookup
    show resolveLoop [TemplatePart.Text (String.mk ['\\', c])] lookup "" = _
    simp [resolveLoop]

/-- Witness for `escape_semantics` at `c = 'a'`: `\a` parses to the
verbatim text `\a`. -/
theorem escape_semantics_witness :
    Template.parse (String.mk ['\\', 'a'])
      = Except.ok (Template.mk [TemplatePart.Text (String.mk ['\\', 'a'])]) :=
  ((escape_semantics 'a').2.2 (by decide) (by decide)).1

/-- **C5 (counterexample).** Parsing `"$"` does fail with the
end-of-input error, but the span of that error starts at byte offset 1
(the offset just past the `$`, where the missing character was expected),
not at offset 0, the offset of the `$` itself. -/
theorem trailing_dollar_span_counterexample :
    Template.parse "$"
      = Except.error (ParseError.mk "Cannot read: reached end of text" "$" (Span.mk 1 0) none)
    ∧ (ParseError.mk "Cannot read: reached end of text" "$" (Span.mk 1 0) none).span.start ≠ 0 := by
  constructor
  · simp only [Template.parse, parseTemplate, parseLoop, TemplateParser.parse_variable,
      TemplateParser.next, TemplateParser.advance, TemplateParser.parse_error, utf8Len]
    rfl
  · simp [ParseError.span]

/-- **C5 (amended).** Parsing `"$"` fails with the end-of-input syntax
error "Cannot read: reached end of text"; the span of the error is empty
and starts at byte offset 1, i.e. at the end of the input just past the
`$`, where the variable name was expected. -/
theorem trailing_dollar_error :
    Template.parse "$"
      = Except.error
          (ParseError.mk "Cannot read: reached end of text" "$" (Span.mk 1 0) none) := by
  simp only [Template.parse, parseTemplate, parseLoop, TemplateParser.parse_variable,
    TemplateParser.next, TemplateParser.advance, TemplateParser.parse_error, utf8Len]
  rfl


/-- **C4.** Braced/bare equivalence: for every non-empty variable name
over `[A-Za-z0-9_.]` and any leading/trailing whitespace inside the
braces, `${ name }` parses to the same single `Variable` part as
`$name` (whitespace trimmed, same name extracted), so resolving the two
templates with the same lookup yields identical results. -/
theorem braced_bare_equivalent (name ws1 ws2 : List Char) (hn : name ≠ [])
    (hv : ∀ c ∈ name, is_valid_variable_char c = true)
    (hws1 : ∀ c ∈ ws1, rust_is_whitespace c = true)
    (hws2 : ∀ c ∈ ws2, rust_is_whitespace c = true) :
    Template.parse ("$\x7b" ++ String.mk ws1 ++ String.mk name ++ String.mk ws2 ++ "\x7d")
      = Except.ok (Template.mk [TemplatePart.Variable (String.mk name)])
    ∧ Template.parse ("$" ++ String.mk name)
      = Except.ok (Template.mk [TemplatePart.Variable (String.mk name)])
    ∧ ∀ lookup : String → Option String,
        Except.map (fun t : Template => t.resolve lookup)
            (Template.parse ("$\x7b" ++ String.mk ws1 ++ String.mk name ++ String.mk ws2 ++ "\x7d"))
          = Except.map (fun t : Template => t.resolve lookup)
            (Template.parse ("$" ++ String.mk name)) := by
  obtain ⟨c0, name', hname⟩ : ∃ c0 name', name = c0 :: name' := by
    cases name with
    | nil => exact absurd rfl hn
    | cons a b => exact ⟨a, b, rfl⟩
  subst hname
  have hc0 : is_valid_variable_char c0 = true := hv c0 (by simp)
  have hc0f := valid_char_facts c0 hc0
  set src1 := "$\x7b" ++ String.mk ws1 ++ String.mk (c0 :: name') ++ String.mk ws2 ++ "\x7d"
    with hsrc1
  set src2 := "$" ++ String.mk (c0 :: name') with hsrc2
  -- head of the name run is valid hence not whitespace
  have hheadname : ∀ c ∈ ((c0 :: name') ++ (ws2 ++ ['\x7d'])).head?, rust_is_whitespace c = false := by
    intro c hc
    simp at hc
    subst hc
    exact hc0f.1
  have hskip : skipLeadingWsLoop src1 (ws1 ++ ((c0 :: name') ++ (ws2 ++ ['\x7d']))) 2
      = Except.ok (TemplateParser.mk src1 ((c0 :: name') ++ (ws2 ++ ['\x7d']))
          (2 + utf8LenSum ws1)) :=
    skipLeadingWsLoop_spec src1 ws1 _ 2 hws1 hheadname (by simp)
  have hvnhead : ∀ c ∈ (ws2 ++ ['\x7d']).head?, is_valid_variable_char c = false := by
    intro c hc
    cases ws2 with
    | nil =>
      simp at hc
      subst hc
      decide
    | cons w ws2' =>
      simp at hc
      subst hc
      exact (ws_char_facts w (hws2 w (by simp))).1
  have hvn : ∀ off : Nat, varNameLoop src1 ((c0 :: name') ++ (ws2 ++ ['\x7d'])) off ""
      = (String.mk (c0 :: name'),
         TemplateParser.mk src1 (ws2 ++ ['\x7d']) (off + utf8LenSum (c0 :: name'))) := by
    intro off
    have := varNameLoop_spec src1 (c0 :: name') (ws2 ++ ['\x7d']) off "" hv hvnhead
    simpa using this
  have htrail : ∀ off : Nat, skipTrailingWsLoop src1 (ws2 ++ ['\x7d']) off
      = TemplateParser.mk src1 ['\x7d'] (off + utf8LenSum ws2) := by
    intro off
    apply skipTrailingWsLoop_spec src1 ws2 ['\x7d'] off hws2
    intro c hc
    simp at hc
    subst hc
    decide
  have hbr : ∃ st4 : TemplateParser,
      TemplateParser.parse_variable_in_brackets
          (TemplateParser.mk src1 (ws1 ++ ((c0 :: name') ++ (ws2 ++ ['\x7d']))) 2) 1
        = Except.ok (TemplatePart.Variable (String.mk (c0 :: name')), st4)
      ∧ st4.rest = [] := by
    refine ⟨TemplateParser.mk src1 []
        (2 + utf8LenSum ws1 + utf8LenSum (c0 :: name') + utf8LenSum ws2 + utf8Len '\x7d'),
      ?_, ?_⟩
    · unfold TemplateParser.parse_variable_in_brackets
      dsimp only
      rw [hskip]
      dsimp only
      unfold TemplateParser.parse_variable_name
      dsimp only
      rw [hvn]
      dsimp only
      rw [if_neg (by simp [string_mk_eq_empty])]
      rw [htrail]
      unfold TemplateParser.next
      dsimp only [TemplateParser.advance]
      rw [if_pos rfl]
    · rfl
  obtain ⟨st4, hbr4, hrest4⟩ := hbr
  have hparse1 : Template.parse src1
      = Except.ok (Template.mk [TemplatePart.Variable (String.mk (c0 :: name'))]) := by
    have hpv : TemplateParser.parse_variable
        (TemplateParser.mk src1 ('\x7b' :: (ws1 ++ ((c0 :: name') ++ (ws2 ++ ['\x7d']))))
          (0 + utf8Len '$'))
        = Except.ok (TemplatePart.Variable (String.mk (c0 :: name')), st4) := by
      unfold TemplateParser.parse_variable TemplateParser.next
      dsimp only [TemplateParser.advance]
      rw [if_pos rfl]
      exact hbr4
    unfold Template.parse parseTemplate
    show Except.map Template.mk
        (parseLoop src1 ('$' :: '\x7b' :: ((((ws1 ++ (c0 :: name')) ++ ws2) ++ ['\x7d']))) 0 "" []) = _
    have hassoc : (((ws1 ++ (c0 :: name')) ++ ws2) ++ ['\x7d'])
        = ws1 ++ ((c0 :: name') ++ (ws2 ++ ['\x7d'])) := by
      simp [List.append_assoc]
    rw [hassoc]
    rw [parseLoop_var_step _ _ _ _ _ _ _ hpv, hrest4, parseLoop_nil]
    rfl
  have hvn2 : varNameLoop src2 name' (0 + utf8Len '$' + utf8Len c0) (String.singleton c0)
      = (String.mk (c0 :: name'),
         TemplateParser.mk src2 [] (0 + utf8Len '$' + utf8Len c0 + utf8LenSum name')) := by
    have := varNameLoop_spec src2 name' [] (0 + utf8Len '$' + utf8Len c0) (String.singleton c0)
      (fun c hc => hv c (by simp [hc])) (by simp)
    simpa [String.singleton] using this
  have hparse2 : Template.parse src2
      = Except.ok (Template.mk [TemplatePart.Variable (String.mk (c0 :: name'))]) := by
    have hpv2 : TemplateParser.parse_variable
        (TemplateParser.mk src2 (c0 :: name') (0 + utf8Len '$'))
        = Except.ok (TemplatePart.Variable (String.mk (c0 :: name')),
            TemplateParser.mk src2 [] (0 + utf8Len '$' + utf8Len c0 + utf8LenSum name')) := by
      unfold TemplateParser.parse_variable TemplateParser.next
      dsimp only [TemplateParser.advance]
      rw [if_neg hc0f.2.2.1, if_pos hc0]
      unfold TemplateParser.parse_variable_name
      dsimp only
      rw [hvn2]
    unfold Template.parse parseTemplate
    show Except.map Template.mk (parseLoop src2 ('$' :: c0 :: name') 0 "" []) = _
    rw [parseLoop_var_step _ _ _ _ _ _ _ hpv2]
    dsimp only
    rw [parseLoop_nil]
    rfl
  exact ⟨hparse1, hparse2, fun lookup => by rw [hparse1, hparse2]⟩

/-- Witness for `braced_bare_equivalent` on `${ foo }` versus `$foo`. -/
theorem braced_bare_equivalent_witness :
    Template.parse ("$\x7b" ++ String.mk [' '] ++ String.mk ['f', 'o', 'o'] ++ String.mk [' '] ++ "\x7d")
      = Except.ok (Template.mk [TemplatePart.Variable (String.mk ['f', 'o', 'o'])])
    ∧ Template.parse ("$" ++ String.mk ['f', 'o', 'o'])
      = Except.ok (Template.mk [TemplatePart.Variable (String.mk ['f', 'o', 'o'])]) :=
  ⟨(braced_bare_equivalent ['f', 'o', 'o'] [' '] [' '] (by decide) (by decide) (by decide)
      (by decide)).1,
   (braced_bare_equivalent ['f', 'o', 'o'] [' '] [' '] (by decide) (by decide) (by decide)
      (by decide)).2.1⟩

/-- Consuming a run of ordinary characters (no backslash, no dollar)
moves them into the buffer and advances the offset by their UTF-8
length, leaving the loop at the rest of the input. -/
theorem parseLoop_literal_run (src : String) :
    ∀ (lit rest : List Char) (off : Nat) (buffer : String) (result : List TemplatePart),
      (∀ c ∈ lit, c ≠ '\\' ∧ c ≠ '$') →
      parseLoop src (lit ++ rest) off buffer result
        = parseLoop src rest (off + utf8LenSum lit) (String.mk (buffer.data ++ lit)) result := by
  intro lit
  induction lit with
  | nil =>
    intro rest off buffer result _
    simp [utf8LenSum]
  | cons c l ih =>
    intro rest off buffer result h
    have hc := h c (by simp)
    show parseLoop src (c :: (l ++ rest)) off buffer result = _
    rw [parseLoop_text_step src c (l ++ rest) off buffer result hc.1 hc.2]
    rw [ih rest (off + utf8Len c) (buffer.push c) result (fun d hd => h d (by simp [hd]))]
    rw [utf8LenSum_cons]
    have hoff : off + utf8Len c + utf8LenSum l = off + (utf8Len c + utf8LenSum l) := by omega
    have hbuf : (buffer.push c).data ++ l = buffer.data ++ (c :: l) := by simp [String.push]
    rw [hoff, hbuf]

/-- `parse_variable_in_brackets` when the input ends before any `}`:
after skipping leading whitespace, reading a non-empty name and skipping
trailing whitespace, the final `next` fails at end of input and the
error is wrapped as "Unclosed brackets" with the span re-anchored to
`start` and the end-of-input error chained as the cause. -/
theorem parse_variable_in_brackets_eof (src : String) (ws1 name ws2 : List Char)
    (off start : Nat) (hn : name ≠ [])
    (hv : ∀ c ∈ name, is_valid_variable_char c = true)
    (hws1 : ∀ c ∈ ws1, rust_is_whitespace c = true)
    (hws2 : ∀ c ∈ ws2, rust_is_whitespace c = true) :
    TemplateParser.parse_variable_in_brackets
        (TemplateParser.mk src (ws1 ++ (name ++ ws2)) off) start
      = Except.error (ParseError.mk "Unclosed brackets" src
          (Span.mk start (off + utf8LenSum ws1 + utf8LenSum name + utf8LenSum ws2 - start))
          (some (ParseError.mk "Cannot read: reached end of text" src
            (Span.mk (off + utf8LenSum ws1 + utf8LenSum name + utf8LenSum ws2) 0) none))) := by
  obtain ⟨c0, name', hname⟩ : ∃ c0 name', name = c0 :: name' := by
    cases name with
    | nil => exact absurd rfl hn
    | cons a b => exact ⟨a, b, rfl⟩
  subst hname
  have hc0 : is_valid_variable_char c0 = true := hv c0 (by simp)
  have hc0f := valid_char_facts c0 hc0
  have hheadname : ∀ c ∈ ((c0 :: name') ++ ws2).head?, rust_is_whitespace c = false := by
    intro c hc
    simp at hc
    subst hc
    exact hc0f.1
  have hskip : skipLeadingWsLoop src (ws1 ++ ((c0 :: name') ++ ws2)) off
      = Except.ok (TemplateParser.mk src ((c0 :: name') ++ ws2) (off + utf8LenSum ws1)) :=
    skipLeadingWsLoop_spec src ws1 _ off hws1 hheadname (by simp)
  have hvnhead : ∀ c ∈ ws2.head?, is_valid_variable_char c = false := by
    intro c hc
    cases ws2 with
    | nil => simp at hc
    | cons w ws2' =>
      simp at hc
      subst hc
      exact (ws_char_facts w (hws2 w (by simp))).1
  have hvn : ∀ o : Nat, varNameLoop src ((c0 :: name') ++ ws2) o ""
      = (String.mk (c0 :: name'),
         TemplateParser.mk src ws2 (o + utf8LenSum (c0 :: name'))) := by
    intro o
    have := varNameLoop_spec src (c0 :: name') ws2 o "" hv hvnhead
    simpa using this
  have htrail : ∀ o : Nat, skipTrailingWsLoop src ws2 o
      = TemplateParser.mk src [] (o + utf8LenSum ws2) := by
    intro o
    have := skipTrailingWsLoop_spec src ws2 [] o hws2 (by simp)
    simpa using this
  unfold TemplateParser.parse_variable_in_brackets
  dsimp only
  rw [hskip]
  dsimp only
  unfold TemplateParser.parse_variable_name
  dsimp only
  rw [hvn]
  dsimp only
  rw [if_neg (by simp [string_mk_eq_empty])]
  rw [htrail]
  unfold TemplateParser.next
  dsimp only [TemplateParser.parse_error, ParseError.and_then, ParseError.with_span,
    ParseError.msg, ParseError.src, ParseError.span, ParseError.cause, TemplateParser.span_from]
  rw [Nat.sub_self]

/-- **C6 (counterexample).** The input `${` ends before the closing `}`
of a braced variable is found, yet parsing it surfaces the bare
end-of-text peek error unwrapped: the outermost message is not
"Unclosed brackets", no cause is chained underneath, and the span sits
at the end of input (offset 2), not re-anchored to the `{` (offset 1). -/
theorem unclosed_brackets_counterexample :
    Template.parse "$\x7b"
      = Except.error
          (ParseError.mk "Cannot peek: reached end of text" "$\x7b" (Span.mk 2 0) none)
    ∧ (ParseError.mk "Cannot peek: reached end of text" "$\x7b" (Span.mk 2 0) none).msg
        ≠ "Unclosed brackets"
    ∧ (ParseError.mk "Cannot peek: reached end of text" "$\x7b" (Span.mk 2 0) none).cause = none
    ∧ (ParseError.mk "Cannot peek: reached end of text" "$\x7b" (Span.mk 2 0) none).span.start
        ≠ 1 := by
  refine ⟨?_, by simp [ParseError.msg], rfl, by simp [ParseError.span]⟩
  simp only [Template.parse, parseTemplate, parseLoop, TemplateParser.parse_variable,
    TemplateParser.parse_variable_in_brackets, skipLeadingWsLoop, TemplateParser.next,
    TemplateParser.advance, TemplateParser.parse_error, utf8Len]
  rfl

/-- **C6 (amended).** For every input made of a literal prefix (no `\`
or `$`), then `${`, optional whitespace, a non-empty `[A-Za-z0-9_.]`
name and optional trailing whitespace, with the input ending before any
closing `}` is found, parse fails with outermost message "Unclosed
brackets", the span re-anchored to the opening `{` and extending to the
end of the input, and the end-of-input error chained underneath as the
cause. (If the input ends before a name is found inside the braces —
e.g. `${` — the bare end-of-text peek error is surfaced instead, with
no wrapping; see the counterexample.) -/
theorem unclosed_brackets (lit ws1 name ws2 : List Char) (hn : name ≠ [])
    (hlit : ∀ c ∈ lit, c ≠ '\\' ∧ c ≠ '$')
    (hv : ∀ c ∈ name, is_valid_variable_char c = true)
    (hws1 : ∀ c ∈ ws1, rust_is_whitespace c = true)
    (hws2 : ∀ c ∈ ws2, rust_is_whitespace c = true) :
    Template.parse
        (String.mk lit ++ "$\x7b" ++ String.mk ws1 ++ String.mk name ++ String.mk ws2)
      = Except.error (ParseError.mk "Unclosed brackets"
          (String.mk lit ++ "$\x7b" ++ String.mk ws1 ++ String.mk name ++ String.mk ws2)
          (Span.mk (utf8LenSum lit + 1)
            (1 + utf8LenSum ws1 + utf8LenSum name + utf8LenSum ws2))
          (some (ParseError.mk "Cannot read: reached end of text"
            (String.mk lit ++ "$\x7b" ++ String.mk ws1 ++ String.mk name ++ String.mk ws2)
            (Span.mk (utf8LenSum lit + 2 + utf8LenSum ws1 + utf8LenSum name + utf8LenSum ws2) 0)
            none))) := by
  set src := String.mk lit ++ "$\x7b" ++ String.mk ws1 ++ String.mk name ++ String.mk ws2
    with hsrc
  have hbr := parse_variable_in_brackets_eof src ws1 name ws2
    (0 + utf8LenSum lit + utf8Len '$' + utf8Len '\x7b') (0 + utf8LenSum lit + utf8Len '$')
    hn hv hws1 hws2
  have hpv : TemplateParser.parse_variable
      (TemplateParser.mk src ('\x7b' :: (ws1 ++ (name ++ ws2)))
        (0 + utf8LenSum lit + utf8Len '$'))
      = Except.error (ParseError.mk "Unclosed brackets" src
          (Span.mk (0 + utf8LenSum lit + utf8Len '$')
            (0 + utf8LenSum lit + utf8Len '$' + utf8Len '\x7b' + utf8LenSum ws1
              + utf8LenSum name + utf8LenSum ws2 - (0 + utf8LenSum lit + utf8Len '$')))
          (some (ParseError.mk "Cannot read: reached end of text" src
            (Span.mk (0 + utf8LenSum lit + utf8Len '$' + utf8Len '\x7b' + utf8LenSum ws1
              + utf8LenSum name + utf8LenSum ws2) 0) none))) := by
    unfold TemplateParser.parse_variable TemplateParser.next
    dsimp only [TemplateParser.advance]
    rw [if_pos rfl]
    exact hbr
  unfold Template.parse parseTemplate
  show Except.map Template.mk
      (parseLoop src ((((lit ++ ['$', '\x7b']) ++ ws1) ++ name) ++ ws2) 0 "" []) = _
  have hassoc : (((lit ++ ['$', '\x7b']) ++ ws1) ++ name) ++ ws2
      = lit ++ ('$' :: '\x7b' :: (ws1 ++ (name ++ ws2))) := by
    simp [List.append_assoc]
  rw [hassoc]
  rw [parseLoop_literal_run src lit ('$' :: '\x7b' :: (ws1 ++ (name ++ ws2))) 0 "" [] hlit]
  rw [parseLoop_var_step_err _ _ _ _ _ _ hpv]
  have hd : utf8Len '$' = 1 := by decide
  have hb2 : utf8Len '\x7b' = 1 := by decide
  rw [hd, hb2]
  simp only [Except.map, Except.error.injEq, ParseError.mk.injEq, Span.mk.injEq,
    Option.some.injEq]
  refine ⟨trivial, trivial, ⟨by omega, by omega⟩, trivial, trivial, ⟨by omega, trivial⟩, trivial⟩

/-- Witness for `unclosed_brackets` on the input `x${ foo ` (literal
prefix `x`, one leading and one trailing space, name `foo`). -/
theorem unclosed_brackets_witness :
    Template.parse (String.mk ['x'] ++ "$\x7b" ++ String.mk [' ']
        ++ String.mk ['f', 'o', 'o'] ++ String.mk [' '])
      = Except.error (ParseError.mk "Unclosed brackets"
          (String.mk ['x'] ++ "$\x7b" ++ String.mk [' ']
            ++ String.mk ['f', 'o', 'o'] ++ String.mk [' '])
          (Span.mk 2 6)
          (some (ParseError.mk "Cannot read: reached end of text"
            (String.mk ['x'] ++ "$\x7b" ++ String.mk [' ']
              ++ String.mk ['f', 'o', 'o'] ++ String.mk [' '])
            (Span.mk 8 0) none))) := by
  have h := unclosed_brackets ['x'] [' '] ['f', 'o', 'o'] [' ']
    (by decide) (by decide) (by decide) (by decide) (by decide)
  simpa [utf8LenSum, utf8Len] using h
